import Mathlib

/-!
Verification development for the serial transport and device-health core of the
Universal Hardware Debugger and Serial Monitor.

The Python source in `src/serial/parser.py`, `src/serial/connection.py` and
`src/devices/manager.py` is embedded shallowly: byte strings become `List Nat`
(each element a byte value), the `DataParser` text and custom modes become pure
functions from the accumulated buffer to the emitted messages plus the remaining
buffer, and the stateful `SerialConnection` lifecycle becomes explicit state
passing over a `ConnState` record together with the list of Qt signals emitted
by each call.  The text encoding is the parser default `utf-8`; decoding with
errors replaced is modelled by a total UTF-8 decoder that substitutes U+FFFD for
each maximal invalid subpart, as CPython does for `errors="replace"`.
-/

set_option autoImplicit false

namespace UHDSM

/-- Byte value of carriage return. -/
def crByte : Nat := 13

/-- Byte value of line feed. -/
def lfByte : Nat := 10

/-- Test whether `pat` is a leading segment of `buf` (byte-wise). -/
def leadsWith : List Nat → List Nat → Bool
  | [], _ => true
  | _ :: _, [] => false
  | p :: ps, b :: bs => p == b && leadsWith ps bs

/-- Index of the first occurrence of the byte pattern `pat` inside `buf`,
mirroring Python `bytes.find` / the `in` test used by `_process_text`. -/
def findSub (pat : List Nat) : List Nat → Option Nat
  | [] => if leadsWith pat [] then some 0 else none
  | b :: t => if leadsWith pat (b :: t) then some 0 else (findSub pat t).map (· + 1)

/-- Whether the byte pattern `pat` occurs inside `buf`; Python `pat in buffer`. -/
def hasSub (buf pat : List Nat) : Bool := (findSub pat buf).isSome

/-- Split `buf` at the first occurrence of `pat`, dropping the separator:
Python `buffer.split(pat, 1)` in the case where `pat` occurs. -/
def splitOnceSub (buf pat : List Nat) : List Nat × List Nat :=
  match findSub pat buf with
  | some i => (buf.take i, buf.drop (i + pat.length))
  | none => (buf, [])

theorem leadsWith_nil_false {p : Nat} {ps : List Nat} :
    leadsWith (p :: ps) [] = false := rfl

theorem findSub_some_lt {pat buf : List Nat} {i : Nat} (hp : pat ≠ [])
    (h : findSub pat buf = some i) : i < buf.length := by
  induction buf generalizing i with
  | nil =>
    cases pat with
    | nil => exact absurd rfl hp
    | cons p ps => simp [findSub, leadsWith_nil_false] at h
  | cons b t ih =>
    by_cases hl : leadsWith pat (b :: t)
    · simp [findSub, hl] at h
      subst h
      simp
    · simp [findSub, hl, Option.map_eq_some'] at h
      obtain ⟨j, hj, rfl⟩ := h
      have := ih hj
      simp
      omega

theorem splitOnceSub_snd_lt {buf pat : List Nat} (hp : pat ≠ [])
    (h : hasSub buf pat = true) : (splitOnceSub buf pat).2.length < buf.length := by
  unfold hasSub at h
  obtain ⟨i, hi⟩ := Option.isSome_iff_exists.mp h
  have hlt := findSub_some_lt hp hi
  have hlen : 1 ≤ pat.length := by
    cases pat with
    | nil => exact absurd rfl hp
    | cons _ _ => simp
  simp [splitOnceSub, hi]
  omega

/-- The Unicode replacement character U+FFFD. -/
def replChar : Char := Char.ofNat 0xFFFD

/-- Whether a byte is a valid UTF-8 continuation byte. -/
def isCont (b : Nat) : Bool := 0x80 ≤ b && b ≤ 0xBF

/-- Decode a UTF-8 byte list to characters, replacing each maximal invalid
subpart by U+FFFD; total model of CPython `bytes.decode("utf-8", "replace")`. -/
def utf8ReplaceAux : List Nat → List Char
  | [] => []
  | b :: rest =>
    if b < 0x80 then Char.ofNat b :: utf8ReplaceAux rest
    else if 0xC2 ≤ b && b ≤ 0xDF then
      match rest with
      | [] => [replChar]
      | b1 :: r1 =>
        if isCont b1 then
          Char.ofNat ((b - 0xC0) * 64 + (b1 - 0x80)) :: utf8ReplaceAux r1
        else replChar :: utf8ReplaceAux (b1 :: r1)
    else if 0xE0 ≤ b && b ≤ 0xEF then
      match rest with
      | [] => [replChar]
      | b1 :: r1 =>
        let okFirst : Bool :=
          if b = 0xE0 then 0xA0 ≤ b1 && b1 ≤ 0xBF
          else if b = 0xED then 0x80 ≤ b1 && b1 ≤ 0x9F
          else isCont b1
        if okFirst then
          match r1 with
          | [] => [replChar]
          | b2 :: r2 =>
            if isCont b2 then
              Char.ofNat ((b - 0xE0) * 4096 + (b1 - 0x80) * 64 + (b2 - 0x80)) ::
                utf8ReplaceAux r2
            else replChar :: utf8ReplaceAux (b2 :: r2)
        else replChar :: utf8ReplaceAux (b1 :: r1)
    else if 0xF0 ≤ b && b ≤ 0xF4 then
      match rest with
      | [] => [replChar]
      | b1 :: r1 =>
        let okFirst : Bool :=
          if b = 0xF0 then 0x90 ≤ b1 && b1 ≤ 0xBF
          else if b = 0xF4 then 0x80 ≤ b1 && b1 ≤ 0x8F
          else isCont b1
        if okFirst then
          match r1 with
          | [] => [replChar]
          | b2 :: r2 =>
            if isCont b2 then
              match r2 with
              | [] => [replChar]
              | b3 :: r3 =>
                if isCont b3 then
                  Char.ofNat ((b - 0xF0) * 262144 + (b1 - 0x80) * 4096 +
                      (b2 - 0x80) * 64 + (b3 - 0x80)) :: utf8ReplaceAux r3
                else replChar :: utf8ReplaceAux (b3 :: r3)
            else replChar :: utf8ReplaceAux (b2 :: r2)
        else replChar :: utf8ReplaceAux (b1 :: r1)
    else replChar :: utf8ReplaceAux rest

/-- Model of `segment.decode(self.encoding, errors="replace")` with the parser
default encoding `utf-8`. -/
def decodeReplace (l : List Nat) : String := String.mk (utf8ReplaceAux l)

/-- One fuel-indexed run of the `while` loop of `DataParser._process_text`:
while the buffer holds a line feed or a carriage return, split it once at the
first `\r\n` if present, else at the first `\n`, else at the first `\r`,
decoding the split-off segment; returns the emitted lines and the remaining
buffer.  Each iteration consumes at least one byte, so fuel `buf.length`
realises the loop exactly (`processText_eq` below). -/
def processTextGo : Nat → List Nat → List String × List Nat
  | 0, buf => ([], buf)
  | fuel + 1, buf =>
    if hasSub buf [lfByte] || hasSub buf [crByte] then
      if hasSub buf [crByte, lfByte] then
        let p := splitOnceSub buf [crByte, lfByte]
        let r := processTextGo fuel p.2
        (decodeReplace p.1 :: r.1, r.2)
      else if hasSub buf [lfByte] then
        let p := splitOnceSub buf [lfByte]
        let r := processTextGo fuel p.2
        (decodeReplace p.1 :: r.1, r.2)
      else if hasSub buf [crByte] then
        let p := splitOnceSub buf [crByte]
        let r := processTextGo fuel p.2
        (decodeReplace p.1 :: r.1, r.2)
      else ([], buf)
    else ([], buf)

/-- Embedding of `DataParser._process_text` acting on the accumulated buffer:
emitted lines together with the parser buffer left after the loop. -/
def processText (buf : List Nat) : List String × List Nat :=
  processTextGo buf.length buf

/-- Embedding of `DataParser.process_data` in line-text mode: the incoming
bytes are appended to the parser internal buffer, then `_process_text` runs. -/
def processDataText (pbuf data : List Nat) : List String × List Nat :=
  processText (pbuf ++ data)


theorem leadsWith_iff {pat buf : List Nat} : leadsWith pat buf = true ↔ pat <+: buf := by
  induction pat generalizing buf with
  | nil => simp [leadsWith]
  | cons p ps ih =>
    cases buf with
    | nil => simp [leadsWith]
    | cons b bs =>
      simp only [leadsWith, Bool.and_eq_true, beq_iff_eq, ih, List.cons_prefix_cons]

theorem hasSub_iff {buf pat : List Nat} : hasSub buf pat = true ↔ pat <:+: buf := by
  induction buf with
  | nil =>
    cases pat with
    | nil => simp [hasSub, findSub, leadsWith]
    | cons p ps => simp [hasSub, findSub, leadsWith]
  | cons b t ih =>
    by_cases hl : leadsWith pat (b :: t)
    · simp [hasSub, findSub, hl]
      exact (leadsWith_iff.mp hl).isInfix
    · simp only [hasSub, findSub, hl, if_false, Bool.false_eq_true]
      rw [List.infix_cons_iff]
      constructor
      · intro h
        simp at h
        exact Or.inr (ih.mp (by simp [hasSub, h]))
      · rintro (h | h)
        · exact absurd (leadsWith_iff.mpr h) (by simp [hl])
        · have := ih.mpr h
          simp [hasSub] at this
          simp [this]

theorem hasSub_lf_of_crlf {buf : List Nat} (h : hasSub buf [crByte, lfByte] = true) :
    hasSub buf [lfByte] = true := by
  rw [hasSub_iff] at h ⊢
  exact List.IsInfix.trans ⟨[crByte], [], rfl⟩ h

theorem processTextGo_nil (f : Nat) : processTextGo f [] = ([], []) := by
  cases f with
  | zero => rfl
  | succ f =>
    have h1 : hasSub [] [lfByte] = false := rfl
    have h2 : hasSub [] [crByte] = false := rfl
    simp [processTextGo, h1, h2]

theorem processTextGo_congr (f : Nat) :
    ∀ (g : Nat) (buf : List Nat), buf.length ≤ f → buf.length ≤ g →
      processTextGo f buf = processTextGo g buf := by
  induction f with
  | zero =>
    intro g buf hf _
    have hb : buf = [] := List.eq_nil_of_length_eq_zero (Nat.le_zero.mp hf)
    subst hb
    rw [processTextGo_nil, processTextGo_nil]
  | succ f ih =>
    intro g buf hf hg
    cases buf with
    | nil => rw [processTextGo_nil, processTextGo_nil]
    | cons b t =>
      cases g with
      | zero => simp at hg
      | succ g =>
        simp only [processTextGo]
        by_cases h1 : hasSub (b :: t) [crByte, lfByte] = true
        · have h0 : (hasSub (b :: t) [lfByte] || hasSub (b :: t) [crByte]) = true := by
            simp [hasSub_lf_of_crlf h1]
          have hlt := @splitOnceSub_snd_lt (b :: t) [crByte, lfByte] (by simp) h1
          simp only [List.length_cons] at hf hg hlt
          rw [if_pos h0, if_pos h0, if_pos h1, if_pos h1,
            ih g (splitOnceSub (b :: t) [crByte, lfByte]).2 (by omega) (by omega)]
        · by_cases h2 : hasSub (b :: t) [lfByte] = true
          · have h0 : (hasSub (b :: t) [lfByte] || hasSub (b :: t) [crByte]) = true := by
              simp [h2]
            have hlt := @splitOnceSub_snd_lt (b :: t) [lfByte] (by simp) h2
            simp only [List.length_cons] at hf hg hlt
            rw [if_pos h0, if_pos h0, if_neg h1, if_neg h1, if_pos h2, if_pos h2,
              ih g (splitOnceSub (b :: t) [lfByte]).2 (by omega) (by omega)]
          · by_cases h3 : hasSub (b :: t) [crByte] = true
            · have h0 : (hasSub (b :: t) [lfByte] || hasSub (b :: t) [crByte]) = true := by
                simp [h3]
              have hlt := @splitOnceSub_snd_lt (b :: t) [crByte] (by simp) h3
              simp only [List.length_cons] at hf hg hlt
              rw [if_pos h0, if_pos h0, if_neg h1, if_neg h1, if_neg h2, if_neg h2,
                if_pos h3, if_pos h3,
                ih g (splitOnceSub (b :: t) [crByte]).2 (by omega) (by omega)]
            · have h0 : ¬(hasSub (b :: t) [lfByte] || hasSub (b :: t) [crByte]) = true := by
                simp [h2, h3]
              rw [if_neg h0, if_neg h0]

theorem processText_eq (buf : List Nat) :
    processText buf =
      if hasSub buf [crByte, lfByte] = true then
        (decodeReplace (splitOnceSub buf [crByte, lfByte]).1 ::
            (processText (splitOnceSub buf [crByte, lfByte]).2).1,
          (processText (splitOnceSub buf [crByte, lfByte]).2).2)
      else if hasSub buf [lfByte] = true then
        (decodeReplace (splitOnceSub buf [lfByte]).1 ::
            (processText (splitOnceSub buf [lfByte]).2).1,
          (processText (splitOnceSub buf [lfByte]).2).2)
      else if hasSub buf [crByte] = true then
        (decodeReplace (splitOnceSub buf [crByte]).1 ::
            (processText (splitOnceSub buf [crByte]).2).1,
          (processText (splitOnceSub buf [crByte]).2).2)
      else ([], buf) := by
  cases buf with
  | nil =>
    have hc1 : hasSub [] [crByte, lfByte] = false := rfl
    have hc2 : hasSub [] [lfByte] = false := rfl
    have hc3 : hasSub [] [crByte] = false := rfl
    simp [processText, processTextGo_nil, hc1, hc2, hc3]
  | cons b t =>
    unfold processText
    simp only [List.length_cons, processTextGo]
    by_cases h1 : hasSub (b :: t) [crByte, lfByte] = true
    · have h0 : (hasSub (b :: t) [lfByte] || hasSub (b :: t) [crByte]) = true := by
        simp [hasSub_lf_of_crlf h1]
      have hlt := @splitOnceSub_snd_lt (b :: t) [crByte, lfByte] (by simp) h1
      simp only [List.length_cons] at hlt
      rw [if_pos h0, if_pos h1, if_pos h1,
        processTextGo_congr t.length (splitOnceSub (b :: t) [crByte, lfByte]).2.length
          (splitOnceSub (b :: t) [crByte, lfByte]).2 (by omega) le_rfl]
    · by_cases h2 : hasSub (b :: t) [lfByte] = true
      · have h0 : (hasSub (b :: t) [lfByte] || hasSub (b :: t) [crByte]) = true := by
          simp [h2]
        have hlt := @splitOnceSub_snd_lt (b :: t) [lfByte] (by simp) h2
        simp only [List.length_cons] at hlt
        rw [if_pos h0, if_neg h1, if_neg h1, if_pos h2, if_pos h2,
          processTextGo_congr t.length (splitOnceSub (b :: t) [lfByte]).2.length
            (splitOnceSub (b :: t) [lfByte]).2 (by omega) le_rfl]
      · by_cases h3 : hasSub (b :: t) [crByte] = true
        · have h0 : (hasSub (b :: t) [lfByte] || hasSub (b :: t) [crByte]) = true := by
            simp [h3]
          have hlt := @splitOnceSub_snd_lt (b :: t) [crByte] (by simp) h3
          simp only [List.length_cons] at hlt
          rw [if_pos h0, if_neg h1, if_neg h1, if_neg h2, if_neg h2, if_pos h3, if_pos h3,
            processTextGo_congr t.length (splitOnceSub (b :: t) [crByte]).2.length
              (splitOnceSub (b :: t) [crByte]).2 (by omega) le_rfl]
        · have h0 : ¬(hasSub (b :: t) [lfByte] || hasSub (b :: t) [crByte]) = true := by
            simp [h2, h3]
          rw [if_neg h0, if_neg h1, if_neg h2, if_neg h3]

theorem processText_segments :
    ∀ (n : Nat) (buf : List Nat), buf.length ≤ n →
      ∃ segs : List (List Nat), (processText buf).1 = segs.map decodeReplace := by
  intro n
  induction n with
  | zero =>
    intro buf hb
    have h : buf = [] := List.eq_nil_of_length_eq_zero (Nat.le_zero.mp hb)
    subst h
    exact ⟨[], by simp [processText, processTextGo_nil]⟩
  | succ n ih =>
    intro buf hb
    rw [processText_eq]
    by_cases h1 : hasSub buf [crByte, lfByte] = true
    · have hlt := @splitOnceSub_snd_lt buf [crByte, lfByte] (by simp) h1
      obtain ⟨segs, hs⟩ := ih (splitOnceSub buf [crByte, lfByte]).2 (by omega)
      exact ⟨(splitOnceSub buf [crByte, lfByte]).1 :: segs, by rw [if_pos h1]; simp [hs]⟩
    · by_cases h2 : hasSub buf [lfByte] = true
      · have hlt := @splitOnceSub_snd_lt buf [lfByte] (by simp) h2
        obtain ⟨segs, hs⟩ := ih (splitOnceSub buf [lfByte]).2 (by omega)
        exact ⟨(splitOnceSub buf [lfByte]).1 :: segs, by
          rw [if_neg h1, if_pos h2]; simp [hs]⟩
      · by_cases h3 : hasSub buf [crByte] = true
        · have hlt := @splitOnceSub_snd_lt buf [crByte] (by simp) h3
          obtain ⟨segs, hs⟩ := ih (splitOnceSub buf [crByte]).2 (by omega)
          exact ⟨(splitOnceSub buf [crByte]).1 :: segs, by
            rw [if_neg h1, if_neg h2, if_pos h3]; simp [hs]⟩
        · exact ⟨[], by rw [if_neg h1, if_neg h2, if_neg h3]; rfl⟩

/-- C2: in line-text mode each iteration of `process_data` splits the
accumulated buffer at the first occurrence of a line terminator, trying
`\r\n`, then `\n`, then `\r`, in that priority order, and every emitted
segment is the replacement-decoding of a byte segment via the configured
(default utf-8) encoding, which is a total function and hence never raises. -/
theorem c2_line_text_priority_split (pbuf data : List Nat) :
    processDataText pbuf data = processText (pbuf ++ data)
    ∧ (∀ buf : List Nat, processText buf =
        if hasSub buf [crByte, lfByte] = true then
          (decodeReplace (splitOnceSub buf [crByte, lfByte]).1 ::
              (processText (splitOnceSub buf [crByte, lfByte]).2).1,
            (processText (splitOnceSub buf [crByte, lfByte]).2).2)
        else if hasSub buf [lfByte] = true then
          (decodeReplace (splitOnceSub buf [lfByte]).1 ::
              (processText (splitOnceSub buf [lfByte]).2).1,
            (processText (splitOnceSub buf [lfByte]).2).2)
        else if hasSub buf [crByte] = true then
          (decodeReplace (splitOnceSub buf [crByte]).1 ::
              (processText (splitOnceSub buf [crByte]).2).1,
            (processText (splitOnceSub buf [crByte]).2).2)
        else ([], buf))
    ∧ (∀ buf : List Nat, ∃ segs : List (List Nat),
        (processText buf).1 = segs.map decodeReplace) :=
  ⟨rfl, processText_eq, fun buf => processText_segments buf.length buf le_rfl⟩

/-- `SerialConnection.MAX_BUFFER_SIZE`: 1 MiB. -/
def MAX_BUFFER_SIZE : Nat := 1024 * 1024

/-- One iteration of the data-available branch of `SerialConnection._read_loop`:
the state is (connection-local read buffer, parser internal buffer).  If data
arrived, the local buffer is truncated to its newest `MAX_BUFFER_SIZE / 2`
bytes when adding would exceed `MAX_BUFFER_SIZE`, the data is appended, the
whole local buffer is handed to `DataParser.process_data`, and the local buffer
is then replaced by a copy of the parser remaining buffer. -/
def readStep (st : List Nat × List Nat) (data : List Nat) :
    (List Nat × List Nat) × List String :=
  if data = [] then (st, [])
  else
    let cb0 := if st.1.length + data.length > MAX_BUFFER_SIZE then
        st.1.drop (st.1.length - MAX_BUFFER_SIZE / 2)
      else st.1
    let r := processDataText st.2 (cb0 ++ data)
    ((r.2, r.2), r.1)

/-- Feeding a sequence of reads through `_read_loop`, collecting all lines
emitted as `data_received` signals in order. -/
def readFeed (st : List Nat × List Nat) :
    List (List Nat) → (List Nat × List Nat) × List String
  | [] => (st, [])
  | d :: ds =>
    let s := readStep st d
    let rest := readFeed s.1 ds
    (rest.1, s.2 ++ rest.2)

/-- The test vector of the round-trip framing property: `b"AT+GMR\r\nOK\r\n"`. -/
def gmrBytes : List Nat := [65, 84, 43, 71, 77, 82, 13, 10, 79, 75, 13, 10]

/-- C1 fails on the code: splitting `b"AT+GMR\r\nOK\r\n"` after 3 bytes and
feeding both chunks through the read path yields `["AT+AT+GMR", "OK"]`, not
`["AT+GMR", "OK"]` — `process_data` appends the whole connection buffer (which
already contains the parser leftover `b"AT+"`) to the parser internal buffer,
duplicating the unterminated prefix. -/
theorem c1_split_framing_duplication :
    (readFeed ([], []) [gmrBytes.take 3, gmrBytes.drop 3]).2 = ["AT+AT+GMR", "OK"]
    ∧ (readFeed ([], []) [gmrBytes.take 3, gmrBytes.drop 3]).2 ≠ ["AT+GMR", "OK"] := by
  constructor
  · rfl
  · decide

theorem findSub_replicate {p : Nat} (ps : List Nat) (hp : p ≠ 65) (n : Nat) :
    findSub (p :: ps) (List.replicate n 65) = none := by
  induction n with
  | zero => simp [findSub, leadsWith]
  | succ n ih => simp [List.replicate_succ, findSub, leadsWith, hp, ih]

theorem processText_replicate (n : Nat) :
    processText (List.replicate n 65) = ([], List.replicate n 65) := by
  have h1 : hasSub (List.replicate n 65) [crByte, lfByte] = false := by
    simp [hasSub, crByte, lfByte, @findSub_replicate 13 [10] (by decide) n]
  have h2 : hasSub (List.replicate n 65) [lfByte] = false := by
    simp [hasSub, lfByte, @findSub_replicate 10 [] (by decide) n]
  have h3 : hasSub (List.replicate n 65) [crByte] = false := by
    simp [hasSub, crByte, @findSub_replicate 13 [] (by decide) n]
  rw [processText_eq, if_neg (by simp [h1]), if_neg (by simp [h2]), if_neg (by simp [h3])]

theorem readStep_replicate (c r : Nat) (h : c + 1024 ≤ MAX_BUFFER_SIZE) :
    readStep (List.replicate c 65, List.replicate r 65) (List.replicate 1024 65)
      = ((List.replicate (r + (c + 1024)) 65, List.replicate (r + (c + 1024)) 65), []) := by
  have hne : List.replicate 1024 (65 : Nat) ≠ [] := by
    intro hcon
    have hlen := congrArg List.length hcon
    rw [List.length_replicate, List.length_nil] at hlen
    exact absurd hlen (by decide)
  have hsz : ¬((List.replicate c (65 : Nat)).length +
      (List.replicate 1024 (65 : Nat)).length > MAX_BUFFER_SIZE) := by
    simp only [List.length_replicate]
    omega
  rw [readStep, if_neg hne]
  simp only [hsz, if_neg, if_false]
  rw [← List.replicate_add c 1024 (65 : Nat)]
  simp only [processDataText, ← List.replicate_add r (c + 1024) (65 : Nat),
    processText_replicate]

theorem readFeed_cons (st : List Nat × List Nat) (d : List Nat) (ds : List (List Nat)) :
    readFeed st (d :: ds)
      = ((readFeed (readStep st d).1 ds).1,
          (readStep st d).2 ++ (readFeed (readStep st d).1 ds).2) := rfl

theorem readFeed_step_replicate (x : Nat) (ds : List (List Nat))
    (h : x + 1024 ≤ MAX_BUFFER_SIZE) :
    readFeed (List.replicate x 65, List.replicate x 65) (List.replicate 1024 65 :: ds)
      = readFeed (List.replicate (x + (x + 1024)) 65,
          List.replicate (x + (x + 1024)) 65) ds := by
  have hs := readStep_replicate x x h
  rw [readFeed_cons, hs]
  simp

/-- The C3 failing input: eleven consecutive 1024-byte reads holding no line
terminator (every byte is 0x41). -/
def c3Chunks : List (List Nat) := List.replicate 11 (List.replicate 1024 65)

/-- C3 fails on the code: after eleven 1024-byte terminator-free reads (11264
bytes in total), the parser internal buffer holds 2096128 bytes, exceeding
`MAX_BUFFER_SIZE` (1 MiB).  The truncation in `_read_loop` bounds only the
connection-local buffer, while `process_data` appends that whole buffer —
including the leftover the parser already holds — to the parser internal
buffer, which is itself never truncated. -/
theorem c3_parser_buffer_unbounded :
    (readFeed ([], []) c3Chunks).1.2 = List.replicate 2096128 65
    ∧ MAX_BUFFER_SIZE < ((readFeed ([], []) c3Chunks).1.2).length := by
  have e0 : (([] : List Nat), ([] : List Nat))
      = (List.replicate 0 65, List.replicate 0 65) := by simp
  have ec : c3Chunks = [List.replicate 1024 65, List.replicate 1024 65,
      List.replicate 1024 65, List.replicate 1024 65, List.replicate 1024 65,
      List.replicate 1024 65, List.replicate 1024 65, List.replicate 1024 65,
      List.replicate 1024 65, List.replicate 1024 65, List.replicate 1024 65] := rfl
  have key : readFeed (([] : List Nat), ([] : List Nat)) c3Chunks
      = ((List.replicate 2096128 65, List.replicate 2096128 65), []) := by
    rw [e0, ec]
    rw [readFeed_step_replicate 0 _ (by decide)]
    norm_num
    rw [readFeed_step_replicate 1024 _ (by decide)]
    norm_num
    rw [readFeed_step_replicate 3072 _ (by decide)]
    norm_num
    rw [readFeed_step_replicate 7168 _ (by decide)]
    norm_num
    rw [readFeed_step_replicate 15360 _ (by decide)]
    norm_num
    rw [readFeed_step_replicate 31744 _ (by decide)]
    norm_num
    rw [readFeed_step_replicate 64512 _ (by decide)]
    norm_num
    rw [readFeed_step_replicate 130048 _ (by decide)]
    norm_num
    rw [readFeed_step_replicate 261120 _ (by decide)]
    norm_num
    rw [readFeed_step_replicate 523264 _ (by decide)]
    norm_num
    rw [readFeed_step_replicate 1047552 _ (by decide)]
    norm_num [readFeed]
  rw [key]
  refine ⟨rfl, ?_⟩
  rw [List.length_replicate]
  decide

/-- Leftmost, non-overlapping (start, end) matches of a literal byte pattern in
`buf`: the behavior of `re.finditer` specialised to a pattern of literal bytes
(the shape of pattern used to settle the custom-mode claim).  Fuel-indexed;
fuel `buf.length` is always enough for a nonempty pattern. -/
def litFinditerGo : Nat → List Nat → List Nat → List (Nat × Nat)
  | 0, _, _ => []
  | fuel + 1, pat, buf =>
    match findSub pat buf with
    | none => []
    | some i =>
      (i, i + pat.length) ::
        (litFinditerGo fuel pat (buf.drop (i + pat.length))).map
          (fun q => (q.1 + (i + pat.length), q.2 + (i + pat.length)))

/-- All matches of the literal pattern over `buf`, as `re.finditer` yields them. -/
def litFinditer (pat buf : List Nat) : List (Nat × Nat) :=
  litFinditerGo buf.length pat buf

/-- The match loop of `DataParser._process_custom`: the `finditer` iterator
ranges over the original buffer `orig`, each match emits `match.group(0)`
(bytes of `orig` between the match bounds) decoded with replacement, and after
each match the live buffer is reassigned to `self.buffer[match.end():]` —
the match end refers to `orig` while the live buffer has already shrunk. -/
def customLoop (orig : List Nat) : List (Nat × Nat) → List Nat → List String × List Nat
  | [], cur => ([], cur)
  | m :: ms, cur =>
    let msg := decodeReplace ((orig.drop m.1).take (m.2 - m.1))
    let rest := customLoop orig ms (cur.drop m.2)
    (msg :: rest.1, rest.2)

/-- Embedding of `DataParser.process_data` in custom mode with a compiled
literal pattern: append the incoming data to the parser internal buffer, then
run `_process_custom` over it. -/
def processDataCustom (pat pbuf data : List Nat) : List String × List Nat :=
  customLoop (pbuf ++ data) (litFinditer pat (pbuf ++ data)) (pbuf ++ data)

/-- C4 fails on the code: with pattern `b"ab"` and buffer `b"ab ab X"`, both
matches are emitted in order, but the buffer ends empty instead of retaining
the trailing `b" X"` (the bytes after the end of the last match, position 5):
`self.buffer[match.end():]` slices the already-shrunk buffer with an index
into the original one, discarding trailing unmatched bytes. -/
theorem c4_custom_mode_overconsumes :
    processDataCustom [97, 98] [] [97, 98, 32, 97, 98, 32, 88] = (["ab", "ab"], [])
    ∧ litFinditer [97, 98] [97, 98, 32, 97, 98, 32, 88] = [(0, 2), (3, 5)]
    ∧ [97, 98, 32, 97, 98, 32, 88].drop 5 = [32, 88]
    ∧ ([] : List Nat) ≠ [32, 88] := by
  refine ⟨rfl, rfl, rfl, ?_⟩
  decide

/-- Connection statistics dictionary of `SerialConnection.__init__`; timestamps
are abstract instants (`Option Nat`). -/
structure ConnStats where
  bytes_received : Nat
  bytes_sent : Nat
  packets_received : Nat
  packets_sent : Nat
  errors : Nat
  connect_time : Option Nat
  last_activity : Option Nat
  reconnect_attempts : Nat
  stalled_detected : Nat
deriving DecidableEq

/-- Fresh statistics record. -/
def initStats : ConnStats :=
  { bytes_received := 0, bytes_sent := 0, packets_received := 0, packets_sent := 0,
    errors := 0, connect_time := none, last_activity := none,
    reconnect_attempts := 0, stalled_detected := 0 }

/-- The Qt signals of `SerialConnection`, as emitted events. -/
inductive Event where
  | dataReceived (port : String) (data : String)
  | statusChanged (port : String) (connected : Bool)
  | errorOccurred (port : String) (message : String)
  | reconnectAttempt (port : String) (attempt : Nat)
deriving DecidableEq

/-- Lifecycle state of one `SerialConnection`.  `serial` is `none` when no
serial object exists, `some b` when one exists with open-flag `b`.  The fixed
port-configuration fields (baud rate, data bits, parity, stop bits, flow
control) are carried by the source object but read by no lifecycle decision,
so they are not part of the state.  The outbound queue is `queue.Queue()`,
created with no `maxsize`, hence unbounded; it is modelled as a list. -/
structure ConnState where
  port : String
  auto_reconnect : Bool
  reconnect_interval : Nat
  reconnect_attempts : Nat
  max_reconnect_attempts : Nat
  serial : Option Bool
  connected : Bool
  running : Bool
  stalled_timer : Bool
  write_queue : List String
  stats : ConnStats
deriving DecidableEq

/-- `SerialConnection.__init__` with the given port and reconnection settings
(defaults: `auto_reconnect=True`, `reconnect_interval=5`,
`max_reconnect_attempts=5`). -/
def mkSerialConnection (port : String) (auto_reconnect : Bool)
    (reconnect_interval : Nat) : ConnState :=
  { port := port, auto_reconnect := auto_reconnect,
    reconnect_interval := reconnect_interval, reconnect_attempts := 0,
    max_reconnect_attempts := 5, serial := none, connected := false,
    running := false, stalled_timer := false, write_queue := [],
    stats := initStats }

/-- `SerialConnection.open`: resets the attempt counter, then tries to build
the serial object (`ok` says whether `serial.Serial(...)` succeeds at instant
`now`); on success starts both pumps and the stall timer, marks connected and
emits `connection_status_changed(port, True)`; on failure emits an error event
(message text abstracted) and bumps the error counter. -/
def openConn (c : ConnState) (ok : Bool) (now : Nat) : ConnState × List Event × Bool :=
  let c0 := { c with reconnect_attempts := 0 }
  if ok then
    ({ c0 with
        serial := some true, running := true, stalled_timer := true,
        connected := true,
        stats := { c0.stats with
          connect_time := some now, last_activity := some now } },
      [Event.statusChanged c.port true], true)
  else
    ({ c0 with stats := { c0.stats with errors := c0.stats.errors + 1 } },
      [Event.errorOccurred c.port "open error"], false)

/-- `SerialConnection.close`: clears the running flag, cancels the stall
timer, joins the pumps, closes the serial object if it is open, marks
disconnected and emits `connection_status_changed(port, False)`; returns
`True`. -/
def closeConn (c : ConnState) : ConnState × List Event × Bool :=
  ({ c with
      running := false, stalled_timer := false,
      serial := if c.serial = some true then some false else c.serial,
      connected := false },
    [Event.statusChanged c.port false], true)

/-- `SerialConnection.send`: rejects when not connected; otherwise appends a
newline when requested and the data does not already end with one, and puts
the data on the outbound queue (`queue.Queue()` with no size bound, so `put`
always appends without blocking). -/
def sendConn (c : ConnState) (data : String) (add_newline : Bool) : ConnState × Bool :=
  if c.connected = false then (c, false)
  else
    ({ c with
        write_queue := c.write_queue ++
          [if add_newline && !(data.endsWith "\n") then data ++ "\n" else data] }, true)

/-- `SerialConnection._attempt_reconnect`: refuses (no event, no state change)
when auto-reconnect is off or the attempt counter has reached the cap;
otherwise increments the counter and its statistics mirror, emits
`reconnect_attempt(port, n)`, closes the stale serial object, and reopens it
(`reopenOk` says whether `serial.Serial(...)` succeeds).  On success marks
connected and emits `connection_status_changed(port, True)`; on failure the
next attempt is left to the scheduled timer. -/
def attemptReconnect (c : ConnState) (reopenOk : Bool) : ConnState × List Event × Bool :=
  if c.auto_reconnect = false ∨ c.max_reconnect_attempts ≤ c.reconnect_attempts then
    (c, [], false)
  else
    let a := c.reconnect_attempts + 1
    let st := { c.stats with reconnect_attempts := c.stats.reconnect_attempts + 1 }
    if reopenOk then
      ({ c with
          reconnect_attempts := a, stats := st, serial := some true,
          connected := true },
        [Event.reconnectAttempt c.port a, Event.statusChanged c.port true], true)
    else
      ({ c with
          reconnect_attempts := a, stats := st,
          serial := if c.serial = some true then some false else c.serial },
        [Event.reconnectAttempt c.port a], false)

/-- A sequence of reconnection triggers (read-pump errors, write-pump errors,
stall detections, scheduled retry timers) — each one invokes
`_attempt_reconnect`, whose reopen outcome is the corresponding list entry;
collects all events emitted. -/
def runTriggers (c : ConnState) : List Bool → ConnState × List Event
  | [] => (c, [])
  | ok :: oks =>
    let r := attemptReconnect c ok
    let rest := runTriggers r.1 oks
    (rest.1, r.2.1 ++ rest.2)

/-- Iterated `send` with `add_newline=True`. -/
def sendAll (c : ConnState) : List String → ConnState
  | [] => c
  | d :: ds => sendAll (sendConn c d true).1 ds

/-- A concrete connection on port COM3 with default settings, successfully
opened at instant 0. -/
def comOpen : ConnState := (openConn (mkSerialConnection "COM3" true 5) true 0).1

/-- The state after two consecutive failed reconnection attempts on `comOpen`. -/
def c5FailTwice : ConnState :=
  (attemptReconnect (attemptReconnect comOpen false).1 false).1

/-- C5 as stated is false on the code: after two failed attempts the counter
is 2; the third attempt succeeds (returns True, connected resumes) but the
counter becomes 3, not 0 — `_attempt_reconnect` never resets the counter on
success; only `open()` does. -/
theorem c5_success_leaves_counter :
    (attemptReconnect c5FailTwice true).2.2 = true
    ∧ (attemptReconnect c5FailTwice true).1.connected = true
    ∧ (attemptReconnect c5FailTwice true).1.reconnect_attempts = 3
    ∧ (3 : Nat) ≠ 0 := by
  refine ⟨rfl, rfl, rfl, ?_⟩
  decide

/-- C5 amended: across reconnection attempts the counter never decreases, and
a failed eligible attempt increments it; a successful attempt resumes the
connected state with the counter at its incremented value (not 0); the counter
is reset to 0 only by `open()`. -/
theorem c5_reconnect_counter_monotone (c : ConnState) (ok : Bool) :
    c.reconnect_attempts ≤ (attemptReconnect c ok).1.reconnect_attempts
    ∧ ((attemptReconnect c ok).2.2 = true →
        (attemptReconnect c ok).1.connected = true
        ∧ (attemptReconnect c ok).1.reconnect_attempts = c.reconnect_attempts + 1)
    ∧ (∀ (okO : Bool) (t : Nat), (openConn c okO t).1.reconnect_attempts = 0) := by
  have hopen : ∀ (okO : Bool) (t : Nat), (openConn c okO t).1.reconnect_attempts = 0 := by
    intro okO t
    cases okO <;> rfl
  refine ⟨?_, ?_, hopen⟩
  · unfold attemptReconnect
    by_cases h : c.auto_reconnect = false ∨ c.max_reconnect_attempts ≤ c.reconnect_attempts
    · rw [if_pos h]
    · rw [if_neg h]
      cases ok
      · exact Nat.le_succ _
      · exact Nat.le_succ _
  · unfold attemptReconnect
    by_cases h : c.auto_reconnect = false ∨ c.max_reconnect_attempts ≤ c.reconnect_attempts
    · rw [if_pos h]
      intro hc
      simp at hc
    · rw [if_neg h]
      cases ok
      · intro hc
        simp at hc
      · intro _
        exact ⟨rfl, rfl⟩

/-- Witness for the amended C5 at a concrete successful attempt. -/
theorem c5_reconnect_counter_monotone_witness :
    (attemptReconnect comOpen true).2.2 = true
    ∧ ((attemptReconnect comOpen true).1.connected = true
        ∧ (attemptReconnect comOpen true).1.reconnect_attempts
            = comOpen.reconnect_attempts + 1) :=
  ⟨by decide, (c5_reconnect_counter_monotone comOpen true).2.1 (by decide)⟩

/-- C6: once the counter has reached the cap, an arbitrary further sequence of
triggers (read-pump errors, write-pump errors, stall detections) emits no
event at all — in particular no reconnect-attempt event — and leaves the state
unchanged; an explicit `open()` resets the counter to 0. -/
theorem c6_reconnect_cap (c : ConnState)
    (h : c.max_reconnect_attempts ≤ c.reconnect_attempts) (oks : List Bool) :
    (runTriggers c oks).2 = []
    ∧ (runTriggers c oks).1 = c
    ∧ (∀ (okO : Bool) (t : Nat), (openConn c okO t).1.reconnect_attempts = 0) := by
  have hstep : ∀ ok : Bool, attemptReconnect c ok = (c, [], false) := by
    intro ok
    unfold attemptReconnect
    rw [if_pos (Or.inr h)]
  have hopen : ∀ (okO : Bool) (t : Nat), (openConn c okO t).1.reconnect_attempts = 0 := by
    intro okO t
    cases okO <;> rfl
  induction oks with
  | nil => exact ⟨rfl, rfl, hopen⟩
  | cons ok oks ih =>
    obtain ⟨h1, h2, _⟩ := ih
    refine ⟨?_, ?_, hopen⟩
    · simp [runTriggers, hstep ok, h1]
    · simp [runTriggers, hstep ok, h2]

/-- The capped state: five consecutive failed reconnection attempts starting
from the freshly opened connection. -/
def c6Capped : ConnState := (runTriggers comOpen (List.replicate 5 false)).1

/-- Witness for C6: the cap is actually reached after five failed attempts,
and from there triggers emit nothing and change nothing. -/
theorem c6_reconnect_cap_witness :
    c6Capped.max_reconnect_attempts ≤ c6Capped.reconnect_attempts
    ∧ (runTriggers c6Capped [true, false, true]).2 = []
    ∧ (runTriggers c6Capped [true, false, true]).1 = c6Capped :=
  ⟨by decide, (c6_reconnect_cap c6Capped (by decide) [true, false, true]).1,
    (c6_reconnect_cap c6Capped (by decide) [true, false, true]).2.1⟩

/-- C7 amended: a second `close()` reproduces the first close end state
exactly and returns True, but it emits another
`connection_status_changed(port, False)` event — it is not free of side
effects. -/
theorem c7_close_idempotent_state (c : ConnState) :
    (closeConn (closeConn c).1).1 = (closeConn c).1
    ∧ (closeConn (closeConn c).1).2.2 = true
    ∧ (closeConn (closeConn c).1).2.1 = [Event.statusChanged c.port false] := by
  refine ⟨?_, rfl, rfl⟩
  by_cases hs : c.serial = some true
  · simp [closeConn, hs]
  · simp [closeConn, hs]

/-- C7 as stated is false on the code: the second `close()` call still emits a
`connection_status_changed` event, a side effect observed by subscribers. -/
theorem c7_second_close_emits :
    (closeConn (closeConn comOpen).1).2.1 = [Event.statusChanged "COM3" false]
    ∧ (closeConn (closeConn comOpen).1).2.1 ≠ ([] : List Event) := by
  refine ⟨rfl, ?_⟩
  decide

/-- C8 amended: `send` on a disconnected connection fails and changes nothing;
on a connected connection it returns True after appending exactly one item to
the outbound queue — with a newline appended iff requested and not already
present — leaving every other field, statistics included, unchanged.  The
queue, created without a size bound, accepts the item without blocking. -/
theorem c8_send_enqueue (c : ConnState) (data : String) (nl : Bool) :
    (c.connected = false → sendConn c data nl = (c, false))
    ∧ (c.connected = true →
        (sendConn c data nl).2 = true
        ∧ (sendConn c data nl).1 = { c with
            write_queue := c.write_queue ++
              [if nl && !(data.endsWith "\n") then data ++ "\n" else data] }) := by
  constructor
  · intro h
    simp [sendConn, h]
  · intro h
    simp [sendConn, h]

/-- Witness for the amended C8 on the opened connection. -/
theorem c8_send_enqueue_witness :
    comOpen.connected = true
    ∧ ((sendConn comOpen "hi" true).2 = true
        ∧ (sendConn comOpen "hi" true).1 = { comOpen with
            write_queue := comOpen.write_queue ++
              [if true && !("hi".endsWith "\n") then "hi" ++ "\n" else "hi"] }) :=
  ⟨by decide, (c8_send_enqueue comOpen "hi" true).2 (by decide)⟩

theorem sendAll_length (xs : List String) : ∀ c : ConnState, c.connected = true →
    (sendAll c xs).write_queue.length = c.write_queue.length + xs.length := by
  induction xs with
  | nil =>
    intro c _
    simp [sendAll]
  | cons d ds ih =>
    intro c h
    have hconn : (sendConn c d true).1.connected = true := by
      simp [sendConn, h]
    rw [sendAll, ih (sendConn c d true).1 hconn]
    simp [sendConn, h]
    omega

/-- C8 is false in one respect: the outbound queue is created by
`queue.Queue()` with no `maxsize`, so it is unbounded — no bound `B` caps its
length over all send sequences on a connected connection. -/
theorem c8_queue_unbounded :
    ¬ ∃ B : Nat, ∀ xs : List String,
        (sendAll comOpen xs).write_queue.length ≤ B := by
  rintro ⟨B, hB⟩
  have h := hB (List.replicate (B + 1) "x")
  rw [sendAll_length (List.replicate (B + 1) "x") comOpen (by decide)] at h
  have hq : comOpen.write_queue.length = 0 := rfl
  rw [hq, List.length_replicate] at h
  omega

/-- Fields of a device record read by `DeviceManager._is_device_flaky`. -/
structure DeviceRec where
  is_flaky : Bool
  connection_attempts : Nat
  connection_failures : Nat
deriving DecidableEq

/-- One entry of the global per-port connection history; timestamps are
rational instants. -/
structure HistEvent where
  action : String
  timestamp : Rat
deriving DecidableEq

/-- Default `devices.flaky_connection_threshold`. -/
def flakyThreshold : Rat := 3 / 10

/-- Default `devices.connection_history_window`. -/
def historyWindow : Nat := 10

/-- Default `devices.min_connection_attempts`. -/
def minAttempts : Nat := 5

/-- Default `devices.min_stable_connection_time` (seconds). -/
def minStableTime : Rat := 30

/-- Python slice `history[-n:]`. -/
def lastN {α : Type} (n : Nat) (l : List α) : List α := l.drop (l.length - n)

/-- Stable insertion used to model Python `sorted(..., key=timestamp)`. -/
def insertByTs (e : HistEvent) : List HistEvent → List HistEvent
  | [] => [e]
  | x :: xs => if e.timestamp ≤ x.timestamp then e :: x :: xs else x :: insertByTs e xs

/-- Stable sort of history events by timestamp. -/
def sortByTs : List HistEvent → List HistEvent
  | [] => []
  | x :: xs => insertByTs x (sortByTs xs)

/-- Differences between consecutive event timestamps. -/
def timeDeltas : List HistEvent → List Rat
  | a :: b :: t => (b.timestamp - a.timestamp) :: timeDeltas (b :: t)
  | _ => []

/-- The global-history checks of `DeviceManager._is_device_flaky` with default
configuration: too little history is never flaky; otherwise among the last
`historyWindow` events, rapid cycling (average delta below the stable time,
requiring at least two deltas) or disconnect dominance (ratio above 1.5)
makes the device flaky. -/
def globalFlakyCheck (history : List HistEvent) : Bool :=
  if history.length < minAttempts then false
  else
    let recent := lastN historyWindow history
    let connect_events := (recent.filter (fun e => e.action == "connect")).length
    let disconnect_events := (recent.filter (fun e => e.action == "disconnect")).length
    let rapid : Bool :=
      if 2 ≤ recent.length then
        let ds := timeDeltas (sortByTs recent)
        if ds ≠ [] ∧ 2 ≤ ds.length then
          if (ds.foldl (· + ·) 0) / (ds.length : Rat) < minStableTime then true
          else false
        else false
      else false
    if rapid then true
    else if 0 < connect_events ∧ 0 < disconnect_events
        ∧ (3 / 2 : Rat) < (disconnect_events : Rat) / (connect_events : Rat) then true
    else false

/-- Embedding of `DeviceManager._is_device_flaky` with default configuration:
given the optional device record for the port and the global connection
history for the port.  An already-flagged device stays flaky; a device with
enough attempts and failure rate at or above the threshold is flaky;
otherwise the global history decides. -/
def isDeviceFlaky (device : Option DeviceRec) (history : List HistEvent) : Bool :=
  match device with
  | some d =>
    if d.is_flaky then true
    else if minAttempts ≤ d.connection_attempts
        ∧ flakyThreshold ≤ (d.connection_failures : Rat) / (d.connection_attempts : Rat)
      then true
    else globalFlakyCheck history
  | none => globalFlakyCheck history

/-- C9: with default configuration and empty global history, an unflagged
device with 5 attempts and 2 failures (rate 0.4 ≥ 0.3) is reported flaky, and
one with 5 attempts and 1 failure (rate 0.2) is not. -/
theorem c9_flakiness_threshold :
    isDeviceFlaky (some ⟨false, 5, 2⟩) [] = true
    ∧ isDeviceFlaky (some ⟨false, 5, 1⟩) [] = false := by
  constructor <;>
    norm_num [isDeviceFlaky, globalFlakyCheck, minAttempts, flakyThreshold, lastN,
      timeDeltas, sortByTs]

/-- The manager table `SerialConnectionManager.connections`, as an association
list from port to connection. -/
structure ManagerState where
  connections : List (String × ConnState)
deriving DecidableEq

/-- Dictionary lookup `self.connections[port]` (and the `port in
self.connections` test, via `Option.isSome`). -/
def lookupConn : List (String × ConnState) → String → Option ConnState
  | [], _ => none
  | e :: t, port => if e.1 = port then some e.2 else lookupConn t port

/-- Dictionary removal `self.connections.pop(port)`. -/
def removeConn : List (String × ConnState) → String → List (String × ConnState)
  | [], _ => []
  | e :: t, port => if e.1 = port then t else e :: removeConn t port

/-- Embedding of `SerialConnectionManager.close_connection`: an unregistered
port is reported as success (with only a warning log) and nothing changes;
otherwise the connection is closed and, if the close reports success, the
entry is removed from the table. -/
def closeConnection (m : ManagerState) (port : String) : ManagerState × Bool :=
  match lookupConn m.connections port with
  | none => (m, true)
  | some c =>
    if (closeConn c).2.2 then ({ connections := removeConn m.connections port }, true)
    else (m, false)

/-- C10: closing a port with no registered connection returns True and leaves
the manager state — the connection table and every connection in it —
unchanged. -/
theorem c10_close_unknown_port (m : ManagerState) (port : String)
    (h : lookupConn m.connections port = none) :
    closeConnection m port = (m, true) := by
  unfold closeConnection
  rw [h]

/-- A manager holding one connection, on COM3. -/
def c10Manager : ManagerState := { connections := [("COM3", comOpen)] }

/-- Witness for C10: closing the unregistered COM9 on a manager that holds a
COM3 connection succeeds and changes nothing. -/
theorem c10_close_unknown_port_witness :
    lookupConn c10Manager.connections "COM9" = none
    ∧ closeConnection c10Manager "COM9" = (c10Manager, true) :=
  ⟨by decide, c10_close_unknown_port c10Manager "COM9" (by decide)⟩

end UHDSM
